import Mathlib

/-!
Verification development for the wide/deep contextual bandit module
(`wide_deep_bandits_BLR_TS.py`).  The Python source is shallowly embedded:
pure numeric code becomes Lean functions over `ℚ`, stateful code becomes
explicit state passing, numpy/torch randomness and the external neural
approximator become oracle parameters, and fallible Python code returns
`Except PyErr`.  Line references in comments point into the Python file.
-/

set_option maxHeartbeats 1000000

/-- Python exception outcomes that the embedded operations can produce.
`nameErrorPd` models `NameError: name 'pd' is not defined`,
`nameErrorInd` models `NameError: name 'ind' is not defined`,
`nameErrorMethod` models the `NameError` raised for an invalid method
string, and `attributeErr` models the `AttributeError` raised when an
exception handler reads a missing attribute. -/
inductive PyErr where
  | nameErrorPd
  | nameErrorInd
  | nameErrorMethod
  | attributeErr
  | indexErr
  deriving DecidableEq, Repr

/-- Embedding of `ContextualDataset` (lines 206-512).  The four parallel
stores `user_ids`, `contexts`, `actions`, `rewards`; `contexts = None` and
`rewards = None` are represented by the empty list.  `memorySize` keeps the
Python convention that `-1` means unbounded. -/
structure Dataset where
  contextDim : ℕ
  numActions : ℕ
  memorySize : ℤ
  intercept : Bool
  userIds : List ℤ
  contexts : List (List ℚ)
  actions : List ℕ
  rewards : List (List ℚ)
  deriving DecidableEq

/-- The reward row built by `ContextualDataset.add` (lines 266-267):
`r = torch.zeros((1, num_actions)); r[0, action] = float(reward)`.
For `act < numActions` this is the row of the Python code; for an
out-of-range index torch raises `IndexError` instead, so the theorems
about the row carry the bound `act < numActions` (the data model, spec
section 3, restricts actions to `[0, numActions)`). -/
def rewardRow (numActions act : ℕ) (reward : ℚ) : List ℚ :=
  (List.range numActions).map fun j => if j = act then reward else 0

/-- A freshly constructed `ContextualDataset` (lines 209-231). -/
def mkDataset (contextDim numActions : ℕ) (memorySize : ℤ) (intercept : Bool) : Dataset :=
  { contextDim := contextDim, numActions := numActions, memorySize := memorySize,
    intercept := intercept, userIds := [], contexts := [], actions := [], rewards := [] }

/-- Embedding of `ContextualDataset.add` (lines 233-287).  The context is
appended (with a constant `1.0` column in intercept mode, lines 246-249),
then the one-hot reward row, the action and the user id; finally, when a
memory bound is set and exceeded, the oldest row of each store is dropped
(lines 278-283).  The reshape at lines 244-254 validates the context
length before any mutation, so a malformed context aborts without touching
state; the embedding therefore takes the context as an arbitrary flat
vector. -/
def Dataset.add (ds : Dataset) (uid : ℤ) (ctx : List ℚ) (act : ℕ) (reward : ℚ) : Dataset :=
  let c := if ds.intercept then ctx ++ [1] else ctx
  let ds' : Dataset :=
    { ds with contexts := ds.contexts ++ [c],
              rewards := ds.rewards ++ [rewardRow ds.numActions act reward],
              actions := ds.actions ++ [act],
              userIds := ds.userIds ++ [uid] }
  if ds'.memorySize ≠ -1 ∧ (ds'.contexts.length : ℤ) > ds'.memorySize then
    { ds' with contexts := ds'.contexts.tail, rewards := ds'.rewards.tail,
               actions := ds'.actions.tail, userIds := ds'.userIds.tail }
  else ds'

/-- One call of `ContextualDataset.add`. -/
structure AddCall where
  uid : ℤ
  ctx : List ℚ
  act : ℕ
  reward : ℚ

/-- Folds a sequence of `add` calls over a dataset. -/
def runAdds (ds : Dataset) (calls : List AddCall) : Dataset :=
  calls.foldl (fun d c => d.add c.uid c.ctx c.act c.reward) ds

/-- Embedding of `ContextualDataset._ingest_data` (lines 299-355).  The
body opens with `isinstance(rewards, pd.DataFrame)` (line 301), but
`import pandas` appears nowhere in the module (the imports are numpy,
torch, torch.nn, scipy.stats.invgamma, scipy.sparse.coo_matrix and
warnings, lines 11-15 and 203-204), so evaluating `pd` raises
`NameError: name 'pd' is not defined` before any statement can mutate the
buffer.  The capacity check with its explicit message (lines 321-324) and
everything after it are unreachable.  The module has further unbound names
of the same kind: `pickle` in `save` (line 1023) and
`parallelize_multivar` in `_sample` (line 996). -/
def Dataset.ingestData (_ds : Dataset) (_uids : List ℤ) (_ctxs : List (List ℚ))
    (_acts : List ℕ) (_rws : List ℚ) : Except PyErr Dataset :=
  Except.error PyErr.nameErrorPd

/-- Embedding of `ContextualDataset.get_data_with_weights` (lines
376-381).  With an empty buffer the index expression `a_ind[:, 0]` on a
shape `(0,)` array raises `IndexError` (line 380); otherwise the one-hot
weight matrix is built, and then the return expression (line 381) indexes
`torch.tensor(self.user_ids)[ind]` with `ind`, a name that is bound
nowhere in the function and is not a module global, so Python raises
`NameError: name 'ind' is not defined` and the function never returns. -/
def Dataset.getDataWithWeights (ds : Dataset) :
    Except PyErr (List ℤ × List (List ℚ) × List (List ℚ) × List (List ℚ)) :=
  if ds.actions.isEmpty then Except.error PyErr.indexErr
  else
    let _weights := ds.actions.map fun a => rewardRow ds.numActions a 1
    Except.error PyErr.nameErrorInd

/-- Embedding of the index computation of
`ContextualDataset.get_batch_with_weights_recent` (lines 405-422).  The
uniform index draw `np.random.choice(...)` of length `batchSize` is an
oracle argument `draw`.  When `nRecent > 0` the count is clamped first to
the batch size and then to the buffer length (lines 418-421), and the
first clamped-count slots of the draw are overwritten with the most recent
row indices (line 422: `ind[:n_recent] = range(n-n_recent, n)`). -/
def Dataset.recentBatchIndices (ds : Dataset) (batchSize nRecent : ℕ)
    (draw : List ℕ) : List ℕ :=
  let n := ds.contexts.length
  if nRecent > 0 then
    let nr1 := if nRecent > batchSize then batchSize else nRecent
    let nr := if nr1 > n then n else nr1
    List.range' (n - nr) nr ++ draw.drop nr
  else draw

/-- One row of the latent buffer `latent_h`: the latent vector `z`, the
taken action and the observed reward.  `latent_h.add` stores the reward in
the one-hot column of the taken action, so `rewards[i, action]` recovers
exactly `reward` for the rows of that action (lines 363-367 and 809). -/
structure LatentRow (d : ℕ) where
  z : Fin d → ℚ
  act : ℕ
  reward : ℚ

/-- The five parallel per-action posterior stores of the agent:
`self.mu`, `self.cov`, `self.precision`, `self.a`, `self.b`
(lines 626-647). -/
structure PostBank (d : ℕ) where
  mu : ℕ → Fin d → ℚ
  cov : ℕ → Matrix (Fin d) (Fin d) ℚ
  precision : ℕ → Matrix (Fin d) (Fin d) ℚ
  a : ℕ → ℚ
  b : ℕ → ℚ

/-- Embedding of `ContextualDataset.get_data` (lines 363-367) on the
latent buffer: all rows whose action equals `v`, in arrival order
(`np.argwhere(np.array(self.actions) == action)` preserves order). -/
def getData {d : ℕ} (buf : List (LatentRow d)) (v : ℕ) : List (LatentRow d) :=
  buf.filter fun r => r.act == v

/-- Dot product of two rational vectors, the embedding of `np.dot` on
vectors. -/
def dotQ {d : ℕ} (u v : Fin d → ℚ) : ℚ := ∑ i, u i * v i

/-- The Gram matrix `np.dot(z.T, z)` (line 831) of the design matrix whose
rows are the latent vectors of `rows`. -/
def gramZ {d : ℕ} (rows : List (LatentRow d)) : Matrix (Fin d) (Fin d) ℚ :=
  Matrix.of fun i j => (rows.map fun r => r.z i * r.z j).sum

/-- The vector `np.dot(z.T, y)` (line 836). -/
def zTyVec {d : ℕ} (rows : List (LatentRow d)) : Fin d → ℚ :=
  fun i => (rows.map fun r => r.z i * r.reward).sum

/-- The scalar `np.dot(y.T, y)` (line 840). -/
def yTy {d : ℕ} (rows : List (LatentRow d)) : ℚ :=
  (rows.map fun r => r.reward * r.reward).sum

/-- Embedding of `np.linalg.inv` (line 835) over `ℚ`: the adjugate
formula.  Whenever the determinant is nonzero this is the matrix inverse;
`np.linalg.inv` raises on a singular input, which cannot happen here
because `_update_actions` only inverts `Z.T Z + lambda I`, positive
definite for `lambda > 0`. -/
def npInv {d : ℕ} (A : Matrix (Fin d) (Fin d) ℚ) : Matrix (Fin d) (Fin d) ℚ :=
  A.det⁻¹ • A.adjugate

/-- Embedding of `np.unique` (line 823): the sorted list of distinct
values. -/
def npUnique (l : List ℕ) : List ℕ :=
  l.dedup.mergeSort Nat.ble

/-- The loop body of `_update_actions` (lines 823-849): for one action
`v`, recompute the closed-form posterior from all latent rows of `v` and
store it in the five parallel stores at index `v`. -/
def refreshStep {d : ℕ} (lam a0 b0 : ℚ) (buf : List (LatentRow d))
    (bank : PostBank d) (v : ℕ) : PostBank d :=
  let rows := getData buf v
  let s := gramZ rows
  let precision_a := s + lam • (1 : Matrix (Fin d) (Fin d) ℚ)
  let cov_a := npInv precision_a
  let mu_a := cov_a.mulVec (zTyVec rows)
  let a_post := a0 + (rows.length : ℚ) / 2
  let b_post := b0 + ((1 : ℚ) / 2 * yTy rows
      - 1 / 2 * dotQ mu_a (precision_a.mulVec mu_a))
  { mu := Function.update bank.mu v mu_a,
    cov := Function.update bank.cov v cov_a,
    precision := Function.update bank.precision v precision_a,
    a := Function.update bank.a v a_post,
    b := Function.update bank.b v b_post }

/-- Embedding of `Wide_Deep_Bandits._update_actions` (lines 815-849):
iterate the posterior refresh over `np.unique(self.latent_h.actions)`. -/
def updateActions {d : ℕ} (lam a0 b0 : ℚ) (buf : List (LatentRow d))
    (bank : PostBank d) : PostBank d :=
  (npUnique (buf.map fun r => r.act)).foldl (refreshStep lam a0 b0 buf) bank

/-- The user index registry: the dictionary `self.user_dict` (kept as an
association list in insertion order) together with
`self.current_user_size` (lines 662-665). -/
structure UserRegistry where
  dict : List (ℤ × ℕ)
  currentUserSize : ℕ
  deriving DecidableEq

/-- The registry at construction: pre-seeded with the dummy mapping
`{0: 0}` and size 1 (lines 664-665). -/
def initRegistry : UserRegistry :=
  { dict := [(0, 0)], currentUserSize := 1 }

/-- Embedding of `Wide_Deep_Bandits.lookup_one_user_idx` (lines 950-957):
a missing key resolves to the dummy index 0, a present key to its stored
index.  (The caller passes the raw id wrapped in a one-element tensor;
the embedding works on the extracted id.) -/
def lookupOneUserIdx (reg : UserRegistry) (uid : ℤ) : ℕ :=
  match reg.dict.lookup uid with
  | none => 0
  | some i => i

/-- Embedding of `Wide_Deep_Bandits.update_user_dict` (lines 965-970): a
new id is appended with the next index `current_user_size`, which is then
incremented; a known id leaves the registry untouched. -/
def updateUserDict (reg : UserRegistry) (uid : ℤ) : UserRegistry :=
  if (reg.dict.lookup uid).isSome then reg
  else { dict := reg.dict ++ [(uid, reg.currentUserSize)],
         currentUserSize := reg.currentUserSize + 1 }

/-- The three model types accepted at construction (line 542). -/
inductive ModelType where
  | deep
  | wide
  | wideDeep
  deriving DecidableEq

/-- The learning-rate-related state of the agent.  Crucially, at
construction `self.param_dict = param_dict` and
`self.initial_param_dict = param_dict` bind the SAME Python list of the
same dict objects (lines 577-579, 588-590 and 602-607) - there is no
copy - so the model keeps a single store `sharedGroups` for the `lr`
entries of those dicts, read through both attribute names.  `optimGroups`
holds the `lr` entries of `self.optim.param_groups`. -/
structure LrState where
  modelType : ModelType
  initialLrWide : ℚ
  initialLrDeep : ℚ
  decayWide : ℚ
  decayDeep : ℚ
  sharedGroups : List ℚ
  optimGroups : List ℚ
  deriving DecidableEq

/-- The attribute `self.param_dict`: a view of the shared store. -/
def LrState.paramDictLr (st : LrState) : List ℚ := st.sharedGroups

/-- The attribute `self.initial_param_dict`: the SAME list object as
`self.param_dict`, hence the same view of the shared store. -/
def LrState.initialParamDictLr (st : LrState) : List ℚ := st.sharedGroups

/-- Learning-rate state at construction (lines 571-610): the per-group
base rates, with the optimizer groups initialized from them
(`torch.optim.RMSprop(self.param_dict)`, line 669). -/
def mkLrState (mt : ModelType) (lrWide lrDeep decayWide decayDeep : ℚ) : LrState :=
  let groups := match mt with
    | ModelType.deep => [lrDeep]
    | ModelType.wide => [lrWide]
    | ModelType.wideDeep => [lrWide, lrDeep, 1 / 100, 1 / 100]
  { modelType := mt, initialLrWide := lrWide, initialLrDeep := lrDeep,
    decayWide := decayWide, decayDeep := decayDeep,
    sharedGroups := groups, optimGroups := groups }

/-- Embedding of `Wide_Deep_Bandits.assign_lr` (lines 671-682): copy the
`lr` entries of `self.initial_param_dict` (reset) or `self.param_dict`
(otherwise) into the optimizer parameter groups.  Both sources are the
same underlying store. -/
def assignLr (st : LrState) (reset : Bool) : LrState :=
  if reset then { st with optimGroups := st.initialParamDictLr }
  else { st with optimGroups := st.paramDictLr }

/-- The learning-rate portion of `Wide_Deep_Bandits.do_step` (lines
881-899): compute the inverse-time-decayed rates from the initial base
rates and the step index, write them into `self.param_dict` (mutating the
shared dicts in place), then `assign_lr()`.  The gradient computation that
follows (lines 901-926) lives in the external approximator and is not
modelled. -/
def doStepLr (st : LrState) (step : ℕ) : LrState :=
  let lrWide := st.initialLrWide * (1 / (1 + st.decayWide * (step : ℚ)))
  let lrDeep := st.initialLrDeep * (1 / (1 + st.decayDeep * (step : ℚ)))
  let shared := match st.modelType with
    | ModelType.deep => st.sharedGroups.set 0 lrDeep
    | ModelType.wide => st.sharedGroups.set 0 lrWide
    | ModelType.wideDeep => (st.sharedGroups.set 0 lrWide).set 1 lrDeep
  assignLr { st with sharedGroups := shared } false

/-- The learning-rate portion of `Wide_Deep_Bandits._retrain_nn` (lines
939-942): when `reset_lr` is set, call `assign_lr(reset=True)` before
training. -/
def retrainLr (st : LrState) (resetLr : Bool) : LrState :=
  if resetLr then assignLr st true else st

/-- External collaborators and randomness sources consumed by the agent,
abstracted as oracles (spec section 4.3 treats the approximator as an
external contract).  `mvnDraw mean cov` models
`np.random.multivariate_normal(mean, cov)` (line 998); `none` models the
draw raising `np.linalg.LinAlgError` (line 1000), for instance when the
covariance is not positive definite.  `igDraw i` models
`invgamma.rvs(a)[i]` (line 978); `rep u c` models
`get_representation(user_idx, context)` (lines 684-698); `forwardVals`
models the forward pass of the network (lines 730-742); `sqrtQ` stands
for the square root used by `torch.std` inside context scaling. -/
structure Env (d : ℕ) where
  rep : ℕ → List ℚ → Fin d → ℚ
  forwardVals : ℕ → List ℚ → List ℚ
  igDraw : ℕ → ℚ
  mvnDraw : (Fin d → ℚ) → Matrix (Fin d) (Fin d) ℚ → Option (Fin d → ℚ)
  sqrtQ : ℚ → ℚ

/-- The agent state fields touched by the verified claims (construction at
lines 514-665): the action count, context dimension, event counter `t`,
warm-up pull count, scaling flag, posterior bank, raw buffer and user
registry. -/
structure Agent (d : ℕ) where
  numActions : ℕ
  contextDim : ℕ
  t : ℕ
  initialPulls : ℕ
  doScaling : Bool
  bank : PostBank d
  dataH : Dataset
  userDict : UserRegistry

/-- Embedding of `ContextualDataset.scale_contexts(contexts=ctx)[0]`
(lines 440-460) as used by `action` (lines 764-766): per-column
mean/unbiased-std normalization of one query context by the statistics of
the raw buffer, with a zero standard deviation replaced by 1 (line 448).
With an empty buffer `self.contexts` is `None` and `None.mean` raises
`AttributeError` (line 446).  The float NaN produced by a one-row buffer
(0/0 variance) is not modelled; no verified claim depends on scaled
values, which only feed the approximator oracle. -/
def scaleOne (ds : Dataset) (sq : ℚ → ℚ) (ctx : List ℚ) : Except PyErr (List ℚ) :=
  if ds.contexts.isEmpty then Except.error PyErr.attributeErr
  else
    Except.ok ((List.range ds.contextDim).map fun col =>
      let colVals := ds.contexts.map fun c => c.getD col 0
      let m := colVals.sum / (colVals.length : ℚ)
      let sd0 := sq (((colVals.map fun x => (x - m) * (x - m)).sum) / ((colVals.length : ℚ) - 1))
      let sd := if sd0 = 0 then 1 else sd0
      (ctx.getD col 0 - m) / sd)

/-- Embedding of `np.argmax` (line 780): index of the first maximal
entry. -/
def npArgmax : List ℚ → ℕ
  | [] => 0
  | x :: xs => go 0 x 1 xs
where
  go (best : ℕ) (bestVal : ℚ) (i : ℕ) : List ℚ → ℕ
    | [] => best
    | y :: ys => if y > bestVal then go i y (i + 1) ys else go best bestVal (i + 1) ys

/-- Embedding of `Wide_Deep_Bandits.expected_values` with
`method="BLR"` (lines 719-728): resolve the user index, compute the
latent vector through the approximator oracle, and dot it with each
per-action posterior mean. -/
def Agent.expectedValuesBLR {d : ℕ} (ag : Agent d) (env : Env d)
    (uid : ℤ) (ctx : List ℚ) : List ℚ :=
  let uidx := lookupOneUserIdx ag.userDict uid
  let zc := env.rep uidx ctx
  (List.range ag.numActions).map fun i => dotQ (ag.bank.mu i) zc

/-- Embedding of `Wide_Deep_Bandits.expected_values` with
`method="forward"` (lines 730-742): the network forward pass, wholly
inside the external approximator oracle. -/
def Agent.expectedValuesForward {d : ℕ} (ag : Agent d) (env : Env d)
    (uid : ℤ) (ctx : List ℚ) : List ℚ :=
  let uidx := lookupOneUserIdx ag.userDict uid
  env.forwardVals uidx ctx

/-- The sampling loop of `Wide_Deep_Bandits._sample` (lines 977-1006).
For each action `i`, draw `sigma2_s[i] = b[i] * invgamma.rvs(a)[i]`
(line 978), scale the posterior covariance by it (lines 989-994) and draw
a weight vector from the multivariate normal (line 998).  The whole loop
sits inside one `try`; when a draw raises `np.linalg.LinAlgError`, the
handler (lines 1000-1006) first evaluates `e.message` (line 1003) - an
attribute that exceptions no longer carry in Python 3 - so the handler
itself raises `AttributeError` and `_sample` aborts.  The fallback loop
appending standard-normal draws for every action (lines 1004-1006) is
unreachable. -/
def Agent.sampleBetas {d : ℕ} (ag : Agent d) (env : Env d) :
    Except PyErr (List (Fin d → ℚ)) :=
  (List.range ag.numActions).foldlM
    (fun acc i =>
      let sigma2 := ag.bank.b i * env.igDraw i
      let covs := sigma2 • ag.bank.cov i
      match env.mvnDraw (ag.bank.mu i) covs with
      | some betaV => Except.ok (acc ++ [betaV])
      | none => Except.error PyErr.attributeErr)
    []

/-- Embedding of `Wide_Deep_Bandits._sample` (lines 972-1018): run the
sampling loop, then compute the latent vector for the query and dot each
sampled weight vector with it (lines 1009-1018). -/
def Agent.sample {d : ℕ} (ag : Agent d) (env : Env d) (uid : ℤ)
    (ctx : List ℚ) : Except PyErr (List ℚ) := do
  let betas ← ag.sampleBetas env
  let uidx := lookupOneUserIdx ag.userDict uid
  let zc := env.rep uidx ctx
  Except.ok ((List.range ag.numActions).map fun i =>
    dotQ (betas.getD i fun _ => 0) zc)

/-- Embedding of `Wide_Deep_Bandits.action` (lines 746-780).  The method
string is validated first (lines 753-755, `NameError` on anything outside
the three strategies); then the round-robin warm-up returns
`t % num_actions` while `t < num_actions * initial_pulls` (lines
760-762); otherwise the context is optionally scaled by the raw-buffer
statistics (lines 764-766), the chosen strategy produces a score vector,
and `np.argmax` picks the first-maximal action (line 780). -/
def Agent.action {d : ℕ} (ag : Agent d) (env : Env d) (uid : ℤ)
    (ctx : List ℚ) (method : String) : Except PyErr ℕ :=
  if method ∈ (["BLR_TS", "BLR", "forward"] : List String) then
    if ag.t < ag.numActions * ag.initialPulls then
      Except.ok (ag.t % ag.numActions)
    else do
      let ctx2 ← if ag.doScaling then scaleOne ag.dataH env.sqrtQ ctx
                 else Except.ok ctx
      let vals ←
        if method = "forward" then Except.ok (ag.expectedValuesForward env uid ctx2)
        else if method = "BLR" then Except.ok (ag.expectedValuesBLR env uid ctx2)
        else ag.sample env uid ctx2
      Except.ok (npArgmax vals)
  else Except.error PyErr.nameErrorMethod

/-- The value `precision_a = np.dot(z.T, z) + lambda_prior * np.eye(d)`
computed by `_update_actions` for action `v` (line 834). -/
def refPrecision {d : ℕ} (lam : ℚ) (buf : List (LatentRow d)) (v : ℕ) :
    Matrix (Fin d) (Fin d) ℚ :=
  gramZ (getData buf v) + lam • (1 : Matrix (Fin d) (Fin d) ℚ)

/-- The value `cov_a = np.linalg.inv(precision_a)` (line 835). -/
def refCov {d : ℕ} (lam : ℚ) (buf : List (LatentRow d)) (v : ℕ) :
    Matrix (Fin d) (Fin d) ℚ :=
  npInv (refPrecision lam buf v)

/-- The value `mu_a = np.dot(cov_a, np.dot(z.T, y))` (line 836). -/
def refMu {d : ℕ} (lam : ℚ) (buf : List (LatentRow d)) (v : ℕ) : Fin d → ℚ :=
  (refCov lam buf v).mulVec (zTyVec (getData buf v))

/-- The value `a_post = a0 + z.shape[0] / 2.0` (line 839). -/
def refA {d : ℕ} (a0 : ℚ) (buf : List (LatentRow d)) (v : ℕ) : ℚ :=
  a0 + ((getData buf v).length : ℚ) / 2

/-- The value `b_post = b0 + 0.5 * y.T y - 0.5 * mu_a.T precision_a mu_a`
(lines 840-842). -/
def refB {d : ℕ} (lam b0 : ℚ) (buf : List (LatentRow d)) (v : ℕ) : ℚ :=
  b0 + ((1 : ℚ) / 2 * yTy (getData buf v)
    - 1 / 2 * dotQ (refMu lam buf v) ((refPrecision lam buf v).mulVec (refMu lam buf v)))

/-- A posterior bank at its construction-time values for `d = 1`,
`lambda_prior = 1/4`, `a0 = b0 = 6` (lines 626-647). -/
def bankZero : PostBank 1 :=
  { mu := fun _ _ => 0, cov := fun _ => 4 • (1 : Matrix (Fin 1) (Fin 1) ℚ),
    precision := fun _ => (1 / 4 : ℚ) • (1 : Matrix (Fin 1) (Fin 1) ℚ),
    a := fun _ => 6, b := fun _ => 6 }

/-- A one-row latent buffer: one event with latent vector `[2]`, action 0
and reward 3. -/
def bufC1 : List (LatentRow 1) :=
  [{ z := fun _ => 2, act := 0, reward := 3 }]

/-- An oracle environment in which every multivariate-normal draw raises
`np.linalg.LinAlgError` (modelled by `none`), for exercising the failure
path of `_sample`. -/
def envFailAll : Env 1 :=
  { rep := fun _ _ _ => 1, forwardVals := fun _ _ => [0, 0],
    igDraw := fun _ => 1, mvnDraw := fun _ _ => none, sqrtQ := fun _ => 0 }

/-- An agent still in warm-up: 3 actions, 100 initial pulls per action,
event counter 5. -/
def agWarm : Agent 1 :=
  { numActions := 3, contextDim := 1, t := 5, initialPulls := 100,
    doScaling := true, bank := bankZero, dataH := mkDataset 1 3 (-1) false,
    userDict := initRegistry }

/-- An agent past warm-up: 2 actions, 100 initial pulls, event counter
200, no feature scaling. -/
def agTS : Agent 1 :=
  { numActions := 2, contextDim := 1, t := 200, initialPulls := 100,
    doScaling := false, bank := bankZero, dataH := mkDataset 1 2 (-1) false,
    userDict := initRegistry }

/-- Learning-rate state of a deep-only agent constructed with
`initial_lr_deep = 1` and `lr_decay_rate_deep = 1`. -/
def lrDeepOne : LrState := mkLrState ModelType.deep 1 1 0 1

/-- A dataset holding one event `(user 7, context [1], action 0,
reward 5)`. -/
def dsOne : Dataset := (mkDataset 1 2 (-1) false).add 7 [1] 0 5

/-- A dataset holding three events, for exercising the recency-biased
batch sampler. -/
def dsThree : Dataset :=
  runAdds (mkDataset 1 2 (-1) false)
    [{ uid := 1, ctx := [1], act := 0, reward := 1 },
     { uid := 2, ctx := [2], act := 1, reward := 1 },
     { uid := 3, ctx := [3], act := 0, reward := 1 }]

/-- C2: for every agent state with `t < numActions * initialPulls`, every
user id, context and valid strategy string, `action` returns exactly
`t mod numActions`, independent of the context, the buffers, the oracle
environment and the posterior bank. -/
theorem c2_warmup_round_robin {d : ℕ} (ag : Agent d) (env : Env d) (uid : ℤ)
    (ctx : List ℚ) (method : String)
    (hm : method = "BLR_TS" ∨ method = "BLR" ∨ method = "forward")
    (ht : ag.t < ag.numActions * ag.initialPulls) :
    ag.action env uid ctx method = Except.ok (ag.t % ag.numActions) := by
  have hmem : method ∈ (["BLR_TS", "BLR", "forward"] : List String) := by
    rcases hm with h | h | h <;> simp [h]
  unfold Agent.action
  rw [if_pos hmem, if_pos ht]

/-- Witness for C2: a concrete agent with 3 actions, 100 initial pulls
and event counter 5 picks action `5 mod 3 = 2` whatever the context. -/
theorem c2_warmup_round_robin_witness :
    agWarm.action envFailAll 42 [9] "BLR_TS" = Except.ok 2 := by
  have h := c2_warmup_round_robin agWarm envFailAll 42 [9] "BLR_TS"
    (Or.inl rfl) (by decide)
  exact h.trans rfl

/-- C3: when a multivariate-normal draw inside `_sample` fails because
the covariance is not positive definite, the except handler evaluates
`e.message` - an attribute `np.linalg.LinAlgError` does not have in
Python 3 - so the handler raises `AttributeError` and the enclosing
action-selection call aborts instead of returning a per-action score
vector with a per-action fallback.  Evaluated here at a concrete failing
input: 2 actions, the draw for action 0 raising `LinAlgError`. -/
theorem c3_sample_failure_aborts :
    agTS.action envFailAll 7 [1] "BLR_TS" = Except.error PyErr.attributeErr := by
  rfl

/-- C5: every call of `_ingest_data` raises
`NameError: name 'pd' is not defined` at its first statement, because
pandas is never imported by the module; the buffer is left unchanged (the
error occurs before any assignment), but the explicit capacity error of
lines 321-324 is unreachable. -/
theorem c5_ingest_always_nameerror (ds : Dataset) (uids : List ℤ)
    (ctxs : List (List ℚ)) (acts : List ℕ) (rws : List ℚ) :
    ds.ingestData uids ctxs acts rws = Except.error PyErr.nameErrorPd := rfl

/-- C7: `assign_lr(reset=True)` at the start of a retrain copies the `lr`
entries of `initial_param_dict`, but `initial_param_dict` is the same
list of dict objects as `param_dict`, which `do_step` mutates in place;
so after a training step with inverse-time decay the "reset" restores the
stale decayed rate, not the construction-time base rate.  Concretely:
deep model, base rate 1, decay rate 1; after a step with index 1 the
shared store holds 1/2, and the reset leaves the optimizer groups at 1/2
although the base rate was 1. -/
theorem c7_reset_uses_stale_rate :
    (retrainLr (doStepLr lrDeepOne 1) true).optimGroups = [1 / 2]
  ∧ lrDeepOne.initialLrDeep = 1 ∧ ((1 : ℚ) / 2) ≠ 1 := by
  refine ⟨?_, rfl, by norm_num⟩
  simp only [retrainLr, doStepLr, assignLr, mkLrState, lrDeepOne,
    LrState.initialParamDictLr, LrState.paramDictLr, if_true]
  norm_num

/-- C9: on every dataset with at least one stored row,
`get_data_with_weights` raises `NameError` for the unbound name `ind` in
its return expression and never returns the documented tuple. -/
theorem c9_unbound_ind (ds : Dataset) (h : ds.actions ≠ []) :
    ds.getDataWithWeights = Except.error PyErr.nameErrorInd := by
  unfold Dataset.getDataWithWeights
  rw [if_neg (by simp [h])]

/-- Witness for C9: evaluated on a dataset holding one row. -/
theorem c9_unbound_ind_witness :
    dsOne.getDataWithWeights = Except.error PyErr.nameErrorInd :=
  c9_unbound_ind dsOne (by decide)

/-- C8: for a buffer of `n` rows and any outcome of the uniform index
draw, the recency-biased sampler forces the first
`k = min(nRecent, batchSize, n)` returned indices to be exactly the
indices `n - k, ..., n - 1` of the most recently appended rows, keeps the
remaining entries of the uniform draw, and returns `batchSize` indices in
total. -/
theorem c8_recent_batch_forces_newest (ds : Dataset) (s nRecent : ℕ)
    (draw : List ℕ) (_hbuf : 1 ≤ ds.contexts.length) (hr : 0 < nRecent)
    (hlen : draw.length = s) :
    ((ds.recentBatchIndices s nRecent draw).take
        (min (min nRecent s) ds.contexts.length)
      = List.range'
          (ds.contexts.length - min (min nRecent s) ds.contexts.length)
          (min (min nRecent s) ds.contexts.length))
  ∧ ((ds.recentBatchIndices s nRecent draw).drop
        (min (min nRecent s) ds.contexts.length)
      = draw.drop (min (min nRecent s) ds.contexts.length))
  ∧ (ds.recentBatchIndices s nRecent draw).length = s := by
  have hks : min (min nRecent s) ds.contexts.length ≤ s :=
    le_trans (min_le_left _ _) (min_le_right _ _)
  have hclamp :
      (if (if nRecent > s then s else nRecent) > ds.contexts.length
        then ds.contexts.length
        else (if nRecent > s then s else nRecent))
        = min (min nRecent s) ds.contexts.length := by
    rcases le_total nRecent s with h | h <;> rcases le_total nRecent ds.contexts.length with h2 | h2 <;>
      simp only [gt_iff_lt] <;> split <;> split <;> omega
  simp only [Dataset.recentBatchIndices, hr, if_true, hclamp]
  have hlr : (List.range'
      (ds.contexts.length - min (min nRecent s) ds.contexts.length)
      (min (min nRecent s) ds.contexts.length)).length
      = min (min nRecent s) ds.contexts.length := List.length_range' _ _ _
  refine ⟨List.take_left' hlr, List.drop_left' hlr, ?_⟩
  simp only [List.length_append, hlr, List.length_drop]
  omega

/-- Witness for C8: three rows, batch size 2, eight recent requested;
the clamped count is 2 and the returned indices start with rows 1 and 2,
the two newest. -/
theorem c8_recent_batch_forces_newest_witness :
    (dsThree.recentBatchIndices 2 8 [0, 0]).take 2 = [1, 2]
  ∧ (dsThree.recentBatchIndices 2 8 [0, 0]).drop 2 = [] := by
  have h := c8_recent_batch_forces_newest dsThree 2 8 [0, 0]
    (by decide) (by decide) rfl
  have hn : dsThree.contexts.length = 3 := by decide
  rw [hn] at h
  exact ⟨(h.1.trans (by decide)), h.2.1.trans (by decide)⟩

theorem add_preserves_lengths (ds : Dataset) (uid : ℤ) (ctx : List ℚ)
    (act : ℕ) (r : ℚ)
    (h1 : ds.userIds.length = ds.contexts.length)
    (h2 : ds.contexts.length = ds.actions.length)
    (h3 : ds.actions.length = ds.rewards.length) :
    (ds.add uid ctx act r).userIds.length = (ds.add uid ctx act r).contexts.length
  ∧ (ds.add uid ctx act r).contexts.length = (ds.add uid ctx act r).actions.length
  ∧ (ds.add uid ctx act r).actions.length = (ds.add uid ctx act r).rewards.length := by
  simp only [Dataset.add]
  split <;> split <;>
    simp only [List.length_tail, List.length_append, List.length_singleton] <;>
    omega

theorem runAdds_preserves_lengths (calls : List AddCall) : ∀ ds : Dataset,
    ds.userIds.length = ds.contexts.length →
    ds.contexts.length = ds.actions.length →
    ds.actions.length = ds.rewards.length →
    (runAdds ds calls).userIds.length = (runAdds ds calls).contexts.length
  ∧ (runAdds ds calls).contexts.length = (runAdds ds calls).actions.length
  ∧ (runAdds ds calls).actions.length = (runAdds ds calls).rewards.length := by
  induction calls with
  | nil => intro ds h1 h2 h3; exact ⟨h1, h2, h3⟩
  | cons c t ih =>
    intro ds h1 h2 h3
    obtain ⟨g1, g2, g3⟩ := add_preserves_lengths ds c.uid c.ctx c.act c.reward h1 h2 h3
    exact ih (ds.add c.uid c.ctx c.act c.reward) g1 g2 g3

theorem rewardRow_getD_of_lt (n k j : ℕ) (r : ℚ) (hj : j < n) :
    (rewardRow n k r).getD j 0 = if j = k then r else 0 := by
  have hlen : j < (rewardRow n k r).length := by
    simpa [rewardRow] using hj
  rw [List.getD_eq_getElem _ _ hlen]
  simp [rewardRow]

/-- C4 counterexample: the claim asserts every appended reward row has
exactly one non-zero entry; a call with reward 0 appends the all-zero
row, which has none. -/
theorem c4_zero_reward_counterexample :
    ¬ ((((mkDataset 1 2 (-1) false).add 7 [1] 0 0).rewards.getD 0 []).countP
        (fun x => decide (x ≠ 0)) = 1) := by
  decide

/-- C4 (amended): for every sequence of `add` calls with in-range actions
on a fresh dataset, the four parallel stores have equal length after
every call; and the reward row appended for a call with action `k` and
reward `r` has the value `r` in column `k` and 0 in every other column
(hence exactly one non-zero entry whenever `r` is non-zero). -/
theorem c4_buffer_invariant_one_hot (cd na : ℕ) (ms : ℤ) (itc : Bool)
    (calls : List AddCall) (_hval : ∀ c ∈ calls, c.act < na) :
    ((runAdds (mkDataset cd na ms itc) calls).userIds.length
        = (runAdds (mkDataset cd na ms itc) calls).contexts.length
      ∧ (runAdds (mkDataset cd na ms itc) calls).contexts.length
        = (runAdds (mkDataset cd na ms itc) calls).actions.length
      ∧ (runAdds (mkDataset cd na ms itc) calls).actions.length
        = (runAdds (mkDataset cd na ms itc) calls).rewards.length)
  ∧ ∀ (k : ℕ) (r : ℚ), k < na →
      (rewardRow na k r).length = na
      ∧ (rewardRow na k r).getD k 0 = r
      ∧ ∀ j, j < na → j ≠ k → (rewardRow na k r).getD j 0 = 0 := by
  refine ⟨runAdds_preserves_lengths calls (mkDataset cd na ms itc) rfl rfl rfl,
    fun k r hk => ⟨by simp [rewardRow], ?_, fun j hj hjk => ?_⟩⟩
  · rw [rewardRow_getD_of_lt na k k r hk, if_pos rfl]
  · rw [rewardRow_getD_of_lt na k j r hj, if_neg hjk]

/-- Witness for C4: one concrete call with action 0 and reward 5 on a
2-action dataset keeps the stores aligned and appends the row `[5, 0]`. -/
theorem c4_buffer_invariant_one_hot_witness :
    (runAdds (mkDataset 1 2 (-1) false)
        [{ uid := 7, ctx := [1], act := 0, reward := 5 }]).actions.length
      = (runAdds (mkDataset 1 2 (-1) false)
        [{ uid := 7, ctx := [1], act := 0, reward := 5 }]).rewards.length
  ∧ (rewardRow 2 0 (5 : ℚ)).getD 0 0 = 5
  ∧ (rewardRow 2 0 (5 : ℚ)).getD 1 0 = 0 := by
  have h := c4_buffer_invariant_one_hot 1 2 (-1) false
    [{ uid := 7, ctx := [1], act := 0, reward := 5 }]
    (by intro c hc; rw [List.mem_singleton] at hc; subst hc; decide)
  obtain ⟨hk, hself, hother⟩ := h.2 0 5 (by decide)
  exact ⟨h.1.2.2, hself, hother 1 (by decide) (by decide)⟩

theorem lookup_append_of_isSome {l₂ : List (ℤ × ℕ)} :
    ∀ (l₁ : List (ℤ × ℕ)) (x : ℤ), (l₁.lookup x).isSome →
      (l₁ ++ l₂).lookup x = l₁.lookup x := by
  intro l₁
  induction l₁ with
  | nil => intro x h; simp [List.lookup] at h
  | cons p t ih =>
    intro x h
    by_cases hk : x = p.1
    · simp [List.lookup, hk]
    · have hb : (x == p.1) = false := by simp [hk]
      simp only [List.cons_append, List.lookup, hb] at h ⊢
      exact ih x h

theorem lookup_append_of_none {l₁ : List (ℤ × ℕ)} {x : ℤ} {n : ℕ}
    (h : l₁.lookup x = none) : (l₁ ++ [(x, n)]).lookup x = some n := by
  induction l₁ with
  | nil => simp [List.lookup]
  | cons p t ih =>
    by_cases hk : x = p.1
    · simp [List.lookup, hk] at h
    · have hb : (x == p.1) = false := by simp [hk]
      simp only [List.lookup, hb] at h
      simp only [List.cons_append, List.lookup, hb]
      exact ih h

theorem updateUserDict_lookup_preserve (reg : UserRegistry) (u x : ℤ) (i : ℕ)
    (h : reg.dict.lookup x = some i) :
    (updateUserDict reg u).dict.lookup x = some i := by
  unfold updateUserDict
  split
  · exact h
  · rw [lookup_append_of_isSome reg.dict x (by simp [h])]
    exact h

theorem foldl_updateUserDict_preserve (more : List ℤ) :
    ∀ (reg : UserRegistry) (x : ℤ) (i : ℕ), reg.dict.lookup x = some i →
      ((more.foldl updateUserDict reg).dict.lookup x) = some i := by
  induction more with
  | nil => intro reg x i h; exact h
  | cons u t ih =>
    intro reg x i h
    exact ih _ x i (updateUserDict_lookup_preserve reg u x i h)

theorem updateUserDict_dense (reg : UserRegistry) (u : ℤ)
    (h1 : reg.dict.map Prod.snd = List.range reg.dict.length)
    (h2 : reg.currentUserSize = reg.dict.length) :
    ((updateUserDict reg u).dict.map Prod.snd
        = List.range (updateUserDict reg u).dict.length)
  ∧ (updateUserDict reg u).currentUserSize = (updateUserDict reg u).dict.length := by
  unfold updateUserDict
  split
  · exact ⟨h1, h2⟩
  · constructor
    · simp only [List.map_append, List.map_cons, List.map_nil, h1, h2,
        List.length_append, List.length_singleton, List.range_succ]
    · simp [h2]

theorem foldl_updateUserDict_dense (ops : List ℤ) :
    ∀ reg : UserRegistry,
      reg.dict.map Prod.snd = List.range reg.dict.length →
      reg.currentUserSize = reg.dict.length →
      ((ops.foldl updateUserDict reg).dict.map Prod.snd
          = List.range (ops.foldl updateUserDict reg).dict.length)
      ∧ (ops.foldl updateUserDict reg).currentUserSize
          = (ops.foldl updateUserDict reg).dict.length := by
  induction ops with
  | nil => intro reg h1 h2; exact ⟨h1, h2⟩
  | cons u t ih =>
    intro reg h1 h2
    obtain ⟨g1, g2⟩ := updateUserDict_dense reg u h1 h2
    exact ih _ g1 g2

theorem updateUserDict_of_isSome (reg : UserRegistry) (uid : ℤ)
    (h : (reg.dict.lookup uid).isSome) : updateUserDict reg uid = reg := by
  unfold updateUserDict
  rw [if_pos h]

theorem updateUserDict_of_none (reg : UserRegistry) (uid : ℤ)
    (h : reg.dict.lookup uid = none) :
    (updateUserDict reg uid).dict.lookup uid = some reg.currentUserSize := by
  unfold updateUserDict
  rw [if_neg (by rw [h]; simp)]
  exact lookup_append_of_none h

theorem foldl_updateUserDict_len_mono (more : List ℤ) :
    ∀ reg : UserRegistry,
      reg.dict.length ≤ (more.foldl updateUserDict reg).dict.length := by
  induction more with
  | nil => intro reg; exact le_refl _
  | cons u t ih =>
    intro reg
    refine le_trans ?_ (ih (updateUserDict reg u))
    unfold updateUserDict
    split
    · exact le_refl _
    · simp

/-- C6: over any sequence of registrations starting from the pre-seeded
registry, a lookup of a never-registered id returns index 0 (and, being a
total function of the state, never raises and is repeatable); registering
an already-known id leaves the registry unchanged; an assigned index is
never changed by later registrations; a new id receives the next unused
index `current_user_size`; the assigned indices are exactly the dense
range `0, ..., size - 1`; and the registry never shrinks. -/
theorem c6_registry_monotone (ops : List ℤ) :
    (∀ uid : ℤ, ((ops.foldl updateUserDict initRegistry).dict.lookup uid) = none →
        lookupOneUserIdx (ops.foldl updateUserDict initRegistry) uid = 0)
  ∧ (∀ uid : ℤ, (((ops.foldl updateUserDict initRegistry).dict.lookup uid)).isSome →
        updateUserDict (ops.foldl updateUserDict initRegistry) uid
          = ops.foldl updateUserDict initRegistry)
  ∧ (∀ (uid : ℤ) (i : ℕ),
        ((ops.foldl updateUserDict initRegistry).dict.lookup uid) = some i →
        ∀ more : List ℤ,
          ((more.foldl updateUserDict
              (ops.foldl updateUserDict initRegistry)).dict.lookup uid) = some i)
  ∧ (∀ uid : ℤ, ((ops.foldl updateUserDict initRegistry).dict.lookup uid) = none →
        ((updateUserDict (ops.foldl updateUserDict initRegistry) uid).dict.lookup uid)
          = some (ops.foldl updateUserDict initRegistry).currentUserSize)
  ∧ ((ops.foldl updateUserDict initRegistry).dict.map Prod.snd
        = List.range (ops.foldl updateUserDict initRegistry).dict.length)
  ∧ (∀ more : List ℤ, (ops.foldl updateUserDict initRegistry).dict.length
        ≤ ((more.foldl updateUserDict (ops.foldl updateUserDict initRegistry)).dict.length)) := by
  refine ⟨?_, ?_, ?_, ?_, ?_, ?_⟩
  · intro uid h
    simp [lookupOneUserIdx, h]
  · intro uid h
    exact updateUserDict_of_isSome _ uid h
  · intro uid i h more
    exact foldl_updateUserDict_preserve more _ uid i h
  · intro uid h
    exact updateUserDict_of_none _ uid h
  · exact (foldl_updateUserDict_dense ops initRegistry rfl rfl).1
  · intro more
    exact foldl_updateUserDict_len_mono more _
/-- Witness for C6: after registering id 5, an unknown id 9 resolves to
0, and the index 1 assigned to id 5 survives a later registration of
id 7. -/
theorem c6_registry_monotone_witness :
    lookupOneUserIdx (([5] : List ℤ).foldl updateUserDict initRegistry) 9 = 0
  ∧ ((([7] : List ℤ).foldl updateUserDict
        (([5] : List ℤ).foldl updateUserDict initRegistry)).dict.lookup 5) = some 1 := by
  have h := c6_registry_monotone [5]
  exact ⟨h.1 9 (by decide), h.2.2.1 5 1 (by decide) [7]⟩

/-- C10: the raw user id 0 is permanently conflated with the reserved
unknown-user slot: whatever events have been recorded, id 0 is mapped to
dense index 0 (pre-seeded at construction), a lookup of id 0 returns 0,
and registering id 0 never allocates a new index (registration of a
present id is the identity on the registry). -/
theorem c10_user_zero_conflated (ops : List ℤ) :
    ((ops.foldl updateUserDict initRegistry).dict.lookup 0) = some 0
  ∧ lookupOneUserIdx (ops.foldl updateUserDict initRegistry) 0 = 0
  ∧ updateUserDict (ops.foldl updateUserDict initRegistry) 0
      = ops.foldl updateUserDict initRegistry
  ∧ initRegistry.dict.lookup 0 = some 0 := by
  have h0 : ((ops.foldl updateUserDict initRegistry).dict.lookup 0) = some 0 :=
    foldl_updateUserDict_preserve ops initRegistry 0 0 (by decide)
  refine ⟨h0, by simp [lookupOneUserIdx, h0], ?_, by decide⟩
  exact updateUserDict_of_isSome _ 0 (by rw [h0]; rfl)

theorem mem_npUnique (l : List ℕ) (v : ℕ) : v ∈ npUnique l ↔ v ∈ l := by
  rw [npUnique, List.mem_mergeSort]
  exact List.mem_dedup

theorem getData_ne_nil_iff {d : ℕ} (buf : List (LatentRow d)) (v : ℕ) :
    getData buf v ≠ [] ↔ v ∈ (buf.map fun r => r.act) := by
  induction buf with
  | nil => simp [getData]
  | cons r t ih =>
    by_cases hr : r.act = v
    · simp [getData, List.filter_cons, hr]
    · simp only [getData, List.filter_cons] at ih ⊢
      simp [hr, ih]
      intro h
      exact absurd h.symm hr

theorem foldl_refreshStep_mu {d : ℕ} (lam a0 b0 : ℚ) (buf : List (LatentRow d)) :
    ∀ (l : List ℕ) (bank : PostBank d) (v : ℕ),
      (l.foldl (refreshStep lam a0 b0 buf) bank).mu v
        = if v ∈ l then refMu lam buf v else bank.mu v := by
  intro l
  induction l with
  | nil => intro bank v; simp
  | cons hd tl ih =>
    intro bank v
    rw [List.foldl_cons, ih]
    by_cases hv : v ∈ tl
    · rw [if_pos hv, if_pos (List.mem_cons_of_mem hd hv)]
    · by_cases hveq : v = hd
      · subst hveq
        rw [if_neg hv, if_pos (List.mem_cons_self v tl)]
        simp [refreshStep, refMu, refCov, refPrecision]
      · rw [if_neg hv, if_neg (by simp [hveq, hv])]
        simp [refreshStep, Function.update_noteq hveq]

theorem foldl_refreshStep_cov {d : ℕ} (lam a0 b0 : ℚ) (buf : List (LatentRow d)) :
    ∀ (l : List ℕ) (bank : PostBank d) (v : ℕ),
      (l.foldl (refreshStep lam a0 b0 buf) bank).cov v
        = if v ∈ l then refCov lam buf v else bank.cov v := by
  intro l
  induction l with
  | nil => intro bank v; simp
  | cons hd tl ih =>
    intro bank v
    rw [List.foldl_cons, ih]
    by_cases hv : v ∈ tl
    · rw [if_pos hv, if_pos (List.mem_cons_of_mem hd hv)]
    · by_cases hveq : v = hd
      · subst hveq
        rw [if_neg hv, if_pos (List.mem_cons_self v tl)]
        simp [refreshStep, refCov, refPrecision]
      · rw [if_neg hv, if_neg (by simp [hveq, hv])]
        simp [refreshStep, Function.update_noteq hveq]

theorem foldl_refreshStep_precision {d : ℕ} (lam a0 b0 : ℚ) (buf : List (LatentRow d)) :
    ∀ (l : List ℕ) (bank : PostBank d) (v : ℕ),
      (l.foldl (refreshStep lam a0 b0 buf) bank).precision v
        = if v ∈ l then refPrecision lam buf v else bank.precision v := by
  intro l
  induction l with
  | nil => intro bank v; simp
  | cons hd tl ih =>
    intro bank v
    rw [List.foldl_cons, ih]
    by_cases hv : v ∈ tl
    · rw [if_pos hv, if_pos (List.mem_cons_of_mem hd hv)]
    · by_cases hveq : v = hd
      · subst hveq
        rw [if_neg hv, if_pos (List.mem_cons_self v tl)]
        simp [refreshStep, refPrecision]
      · rw [if_neg hv, if_neg (by simp [hveq, hv])]
        simp [refreshStep, Function.update_noteq hveq]

theorem foldl_refreshStep_a {d : ℕ} (lam a0 b0 : ℚ) (buf : List (LatentRow d)) :
    ∀ (l : List ℕ) (bank : PostBank d) (v : ℕ),
      (l.foldl (refreshStep lam a0 b0 buf) bank).a v
        = if v ∈ l then refA a0 buf v else bank.a v := by
  intro l
  induction l with
  | nil => intro bank v; simp
  | cons hd tl ih =>
    intro bank v
    rw [List.foldl_cons, ih]
    by_cases hv : v ∈ tl
    · rw [if_pos hv, if_pos (List.mem_cons_of_mem hd hv)]
    · by_cases hveq : v = hd
      · subst hveq
        rw [if_neg hv, if_pos (List.mem_cons_self v tl)]
        simp [refreshStep, refA]
      · rw [if_neg hv, if_neg (by simp [hveq, hv])]
        simp [refreshStep, Function.update_noteq hveq]

theorem foldl_refreshStep_b {d : ℕ} (lam a0 b0 : ℚ) (buf : List (LatentRow d)) :
    ∀ (l : List ℕ) (bank : PostBank d) (v : ℕ),
      (l.foldl (refreshStep lam a0 b0 buf) bank).b v
        = if v ∈ l then refB lam b0 buf v else bank.b v := by
  intro l
  induction l with
  | nil => intro bank v; simp
  | cons hd tl ih =>
    intro bank v
    rw [List.foldl_cons, ih]
    by_cases hv : v ∈ tl
    · rw [if_pos hv, if_pos (List.mem_cons_of_mem hd hv)]
    · by_cases hveq : v = hd
      · subst hveq
        rw [if_neg hv, if_pos (List.mem_cons_self v tl)]
        simp [refreshStep, refB, refMu, refCov, refPrecision]
      · rw [if_neg hv, if_neg (by simp [hveq, hv])]
        simp [refreshStep, Function.update_noteq hveq]

/-- C1: for every latent buffer and every action `v` with at least one
row, `_update_actions` replaces the posterior of `v` with exactly the
closed-form values `precision = Z.T Z + lambda I`,
`cov = inverse(precision)`, `mu = cov Z.T y`, `a = a0 + rows/2` and
`b = b0 + 0.5 y.T y - 0.5 mu.T precision mu`, where `Z` stacks the latent
vectors and `y` the rewards of the rows of `v`; and for every action with
zero rows all five posterior fields are left unchanged. -/
theorem c1_posterior_refresh_closed_form {d : ℕ} (lam a0 b0 : ℚ)
    (buf : List (LatentRow d)) (bank : PostBank d) (v : ℕ) :
    (getData buf v ≠ [] →
        (updateActions lam a0 b0 buf bank).precision v
            = gramZ (getData buf v) + lam • (1 : Matrix (Fin d) (Fin d) ℚ)
      ∧ (updateActions lam a0 b0 buf bank).cov v
            = npInv (gramZ (getData buf v) + lam • (1 : Matrix (Fin d) (Fin d) ℚ))
      ∧ (updateActions lam a0 b0 buf bank).mu v
            = (npInv (gramZ (getData buf v)
                + lam • (1 : Matrix (Fin d) (Fin d) ℚ))).mulVec (zTyVec (getData buf v))
      ∧ (updateActions lam a0 b0 buf bank).a v
            = a0 + ((getData buf v).length : ℚ) / 2
      ∧ (updateActions lam a0 b0 buf bank).b v
            = b0 + ((1 : ℚ) / 2 * yTy (getData buf v)
                - 1 / 2 * dotQ
                    ((npInv (gramZ (getData buf v)
                      + lam • (1 : Matrix (Fin d) (Fin d) ℚ))).mulVec (zTyVec (getData buf v)))
                    ((gramZ (getData buf v) + lam • (1 : Matrix (Fin d) (Fin d) ℚ)).mulVec
                      ((npInv (gramZ (getData buf v)
                        + lam • (1 : Matrix (Fin d) (Fin d) ℚ))).mulVec (zTyVec (getData buf v))))))
  ∧ (getData buf v = [] →
        (updateActions lam a0 b0 buf bank).mu v = bank.mu v
      ∧ (updateActions lam a0 b0 buf bank).cov v = bank.cov v
      ∧ (updateActions lam a0 b0 buf bank).precision v = bank.precision v
      ∧ (updateActions lam a0 b0 buf bank).a v = bank.a v
      ∧ (updateActions lam a0 b0 buf bank).b v = bank.b v) := by
  constructor
  · intro hne
    have hv : v ∈ npUnique (buf.map fun r => r.act) :=
      (mem_npUnique _ v).mpr ((getData_ne_nil_iff buf v).mp hne)
    refine ⟨?_, ?_, ?_, ?_, ?_⟩
    · rw [updateActions, foldl_refreshStep_precision, if_pos hv]
      rfl
    · rw [updateActions, foldl_refreshStep_cov, if_pos hv]
      rfl
    · rw [updateActions, foldl_refreshStep_mu, if_pos hv]
      rfl
    · rw [updateActions, foldl_refreshStep_a, if_pos hv]
      rfl
    · rw [updateActions, foldl_refreshStep_b, if_pos hv]
      rfl
  · intro hnil
    have hv : v ∉ npUnique (buf.map fun r => r.act) := by
      rw [mem_npUnique]
      intro hcon
      exact ((getData_ne_nil_iff buf v).mpr hcon) hnil
    refine ⟨?_, ?_, ?_, ?_, ?_⟩
    · rw [updateActions, foldl_refreshStep_mu, if_neg hv]
    · rw [updateActions, foldl_refreshStep_cov, if_neg hv]
    · rw [updateActions, foldl_refreshStep_precision, if_neg hv]
    · rw [updateActions, foldl_refreshStep_a, if_neg hv]
    · rw [updateActions, foldl_refreshStep_b, if_neg hv]

/-- Witness for C1: one latent row with action 0 and reward 3; action 0
receives the refreshed inverse-gamma shape `a0 + 1/2 = 13/2`, while
action 1, with no rows, keeps its prior scale `b0 = 6`. -/
theorem c1_posterior_refresh_closed_form_witness :
    getData bufC1 0 ≠ []
  ∧ (updateActions (1 / 4) 6 6 bufC1 bankZero).a 0 = 13 / 2
  ∧ getData bufC1 1 = []
  ∧ (updateActions (1 / 4) 6 6 bufC1 bankZero).b 1 = 6 := by
  have hne : getData bufC1 0 ≠ [] := by simp [getData, bufC1]
  have hnil : getData bufC1 1 = [] := by simp [getData, bufC1]
  have h0 := (c1_posterior_refresh_closed_form (1 / 4) 6 6 bufC1 bankZero 0).1 hne
  have h1 := (c1_posterior_refresh_closed_form (1 / 4) 6 6 bufC1 bankZero 1).2 hnil
  refine ⟨hne, ?_, hnil, ?_⟩
  · rw [h0.2.2.2.1]
    norm_num [getData, bufC1]
  · rw [h1.2.2.2.2]
    rfl
